import Mathlib

/-!
# Verification of the oba-backend cursor-pagination core

Shallow embedding of the two list endpoints of the repository
(`src/resolvers/orders.ts` and the products resolver) together with the
cursor codec they share, and proofs of the testable properties of the
pagination protocol.

Modelling conventions:
* A MongoDB `_id` (the OrderingKey) is modelled as a `Nat`; ObjectIds are
  totally ordered and monotonically assigned, which is all the code relies on.
* A collection is a `List` of records in the store's natural (insertion)
  order.  `find(filter).sort({_id: d}).limit(n)` is modelled as filtering,
  sorting by `_id` in direction `d` and taking `n` elements (MongoDB applies
  `sort` before `limit` regardless of call-chaining order).  A `find` with no
  `sort` clause — as in the products resolver — returns matching records in
  the store's natural order, i.e. list order.  With all keys distinct, a
  MongoDB sort result is the unique sorted permutation, so the concrete
  sorting algorithm used here (insertion sort) is immaterial.
* `req.query` parameters are `Option String` (absent vs. present); JavaScript
  truthiness of strings (`""` is falsy) and of numbers (`NaN` and `0` are
  falsy) is modelled explicitly at each use site.
* The two awaited store calls can fail at runtime; the `findOk` / `countOk`
  flags inject those environmental failures.  The `try/catch` of each handler
  maps any throw (cursor decode error or store failure) to `sendStatus(422)`,
  modelled as `Except.error 422`.
-/

namespace Oba

/-! ## Cursor codec

Modelled from the spec: `encodeCursor` and `decodeCursor` live in
`src/utils/pagination.ts`, which is not among the provided source files; only
their call sites in the resolvers are.  Per the spec (§4.1), `encode` is a
deterministic reversible encoding of the ordering key into an opaque string
(a simple reversible rendering suffices), and `decode` fails on any input
that is not a well-formed encoding of a key (wrong alphabet, wrong
structure, empty string).  We model keys as naturals and the codec as the
canonical decimal rendering: `decode` accepts exactly the strings produced
by `encode` (nonempty, digits only, no leading zero) and rejects all
others. -/

def digitChar (d : Nat) : Char := Char.ofNat (48 + d)

def digitVal (c : Char) : Nat := c.toNat - 48

def isDigitChar (c : Char) : Bool := decide (48 ≤ c.toNat) && decide (c.toNat ≤ 57)

/-- Fuel-driven digit accumulation; `fuel ≥ n` always suffices. -/
def encCharsAux : Nat → Nat → List Char → List Char
  | 0, n, acc => digitChar n :: acc
  | fuel + 1, n, acc =>
    if n < 10 then digitChar n :: acc
    else encCharsAux fuel (n / 10) (digitChar (n % 10) :: acc)

def encChars (n : Nat) : List Char := encCharsAux n n []

def encodeCursor (k : Nat) : String := String.mk (encChars k)

def decChars (cs : List Char) : Nat := cs.foldl (fun a c => a * 10 + digitVal c) 0

/-- A string is a well-formed key encoding iff it is nonempty, uses only the
digit alphabet, and has no leading zero (canonical form). -/
def wellFormedChars : List Char → Bool
  | [] => false
  | c :: cs => (c :: cs).all isDigitChar && (c != '0' || cs.isEmpty)

def decodeCursor (s : String) : Option Nat :=
  if wellFormedChars s.data then some (decChars s.data) else none

/-! ## JavaScript `parseInt(s, 10)`

Model of the number parsing used by the orders handler: skip leading
whitespace, optional sign, then the longest digit prefix; `NaN` (here:
`none`) if no digit follows. -/

def jsWhitespaceChar (c : Char) : Bool :=
  c == ' ' || c == '\t' || c == '\n' || c == '\r'

def jsParseIntChars (cs : List Char) : Option Int :=
  match cs.dropWhile jsWhitespaceChar with
  | [] => none
  | c :: rest =>
    let sgn : Int := if c == '-' then -1 else 1
    let ds : List Char := if c == '-' || c == '+' then rest else c :: rest
    let digits := ds.takeWhile isDigitChar
    if digits.isEmpty then none
    else some (sgn * (decChars digits : Nat))

def jsParseInt (s : String) : Option Int := jsParseIntChars s.data

/-! ## Case-insensitive substring match

`new RegExp(q, "i")` applied to a literal search term (no metacharacter
semantics are relied upon by the spec) tests for a case-insensitive
substring occurrence. -/

def startsList : List Char → List Char → Bool
  | [], _ => true
  | _ :: _, [] => false
  | c :: cs, d :: ds => c == d && startsList cs ds

def occursIn (q : List Char) : List Char → Bool
  | [] => q.isEmpty
  | d :: ds => startsList q (d :: ds) || occursIn q ds

def descriptionMatches (q d : String) : Bool :=
  occursIn q.toLower.data d.toLower.data

/-! ## Pages -/

structure Edge (α : Type) where
  cursor : String
  node : α
deriving DecidableEq, Repr

structure PageInfo where
  endCursor : Option String
  hasNextPage : Bool
  startCursor : Option String
deriving DecidableEq, Repr

structure Page (α : Type) where
  pageInfo : PageInfo
  edges : List (Edge α)
  totalCount : Nat
deriving DecidableEq, Repr

/-- The response-building tail shared verbatim by both list handlers
(lines 51–63 and 208–220 of the source): next-page detection by over-fetch,
trimming, edge construction with freshly encoded cursors, and boundary
cursors (`edges[edges.length-1].cursor` / `edges[0].cursor`, `null` when
empty). -/
def buildPage {α : Type} (getId : α → Nat) (pageSize : Nat)
    (items0 : List α) (totalCount : Nat) : Page α :=
  let hasNextPage : Bool := decide (items0.length > pageSize)
  let items := if hasNextPage then items0.take pageSize else items0
  let edges := items.map fun r => ({ cursor := encodeCursor (getId r), node := r } : Edge α)
  { pageInfo :=
      { endCursor := edges.getLast?.map fun e => e.cursor
        hasNextPage := hasNextPage
        startCursor := edges.head?.map fun e => e.cursor }
    edges := edges
    totalCount := totalCount }

/-! ## Orders resolver (`GET /` of `src/resolvers/orders.ts`) -/

structure OrderRec where
  id : Nat
  batch : Int
  archived : Bool
deriving DecidableEq, Repr

namespace Orders

def DEFAULT_PAGE_SIZE : Nat := 30

/-- Models `pSearch ? parseInt(pSearch.toString(), 10) : undefined`.  `undefined`
and `NaN` are both falsy and are merged into `none`. -/
def searchQuery (pSearch : Option String) : Option Int :=
  match pSearch with
  | some s => if s == "" then none else jsParseInt s
  | none => none

/-- Models `Object.assign({ archived: false }, searchQuery ? { batch: searchQuery } : {})`:
the batch equality is added only when `searchQuery` is truthy (a number other
than `0` and `NaN`). -/
def searchFilter (pSearch : Option String) (r : OrderRec) : Bool :=
  (r.archived == false) &&
    match searchQuery pSearch with
    | some q => if q == 0 then true else r.batch == q
    | none => true

/-- Models `afterCursor ? { _id: { $lt: decodeCursor(afterCursor) } } : {}`.  The
empty string is falsy, so decoding is attempted only for a nonempty cursor;
a decode failure throws (propagated to the handler's `catch`). -/
def cursorFilters (afterCursor : Option String) : Except Unit (OrderRec → Bool) :=
  match afterCursor with
  | none => .ok fun _ => true
  | some c =>
    if c == "" then .ok fun _ => true
    else
      match decodeCursor c with
      | some k => .ok fun r => decide (r.id < k)
      | none => .error ()

/-- Models `sort({ _id: -1 })`: descending comparison on the ordering key. -/
def descLe (a b : OrderRec) : Prop := b.id ≤ a.id

instance : DecidableRel descLe := fun a b => Nat.decLe b.id a.id

instance : IsTotal OrderRec descLe := ⟨fun a b => Nat.le_total b.id a.id⟩

instance : IsTrans OrderRec descLe := ⟨fun _ _ _ h1 h2 => Nat.le_trans h2 h1⟩

/-- Models `Order.find({ $and: [cursorFilters, searchFilter] }).limit(31).sort({_id:-1})`. -/
def findOrders (store : List OrderRec) (cpred : OrderRec → Bool)
    (pSearch : Option String) : List OrderRec :=
  (List.insertionSort descLe
      (store.filter fun r => cpred r && searchFilter pSearch r)).take
    (DEFAULT_PAGE_SIZE + 1)

/-- The whole list handler.  `findOk` / `countOk` inject store failures of
the two awaited calls; any throw is caught and answered with status 422. -/
def index (store : List OrderRec) (findOk countOk : Bool)
    (pSearch afterCursor : Option String) : Except Nat (Page OrderRec) :=
  match cursorFilters afterCursor with
  | .error _ => .error 422
  | .ok cpred =>
    if findOk then
      if countOk then
        .ok (buildPage (fun r => r.id) DEFAULT_PAGE_SIZE
          (findOrders store cpred pSearch)
          ((store.filter (searchFilter pSearch)).length))
      else .error 422
    else .error 422

/-- All records matching the archived+search predicate, in response order
(descending ordering key) — the sequence exhaustive pagination must visit. -/
def allMatching (store : List OrderRec) (pSearch : Option String) : List OrderRec :=
  List.insertionSort descLe (store.filter (searchFilter pSearch))

/-- The untruncated result sequence of the composite (cursor + search) query. -/
def fullMatches (store : List OrderRec) (pSearch afterCursor : Option String) :
    List OrderRec :=
  match cursorFilters afterCursor with
  | .ok cpred =>
      List.insertionSort descLe (store.filter fun r => cpred r && searchFilter pSearch r)
  | .error _ => []

end Orders

/-! ## Products resolver (products file, `GET /`) -/

structure ProductRec where
  id : Nat
  description : String
  archived : Bool
deriving DecidableEq, Repr

namespace Products

def DEFAULT_PAGE_SIZE : Nat := 29

/-- Models `pSearch ? pSearch.toString() : undefined`. -/
def searchQuery (pSearch : Option String) : Option String :=
  match pSearch with
  | some s => if s == "" then none else some s
  | none => none

/-- Models `Object.assign({ archived: false }, searchQuery && { description: new RegExp(searchQuery, "i") })`. -/
def searchFilter (pSearch : Option String) (r : ProductRec) : Bool :=
  (r.archived == false) &&
    match searchQuery pSearch with
    | some q => descriptionMatches q r.description
    | none => true

/-- Models `afterCursor ? { _id: { $gt: decodeCursor(afterCursor) } } : {}`. -/
def cursorFilters (afterCursor : Option String) : Except Unit (ProductRec → Bool) :=
  match afterCursor with
  | none => .ok fun _ => true
  | some c =>
    if c == "" then .ok fun _ => true
    else
      match decodeCursor c with
      | some k => .ok fun r => decide (k < r.id)
      | none => .error ()

/-- Models `Product.find({ $and: [cursorFilters, searchFilter] }).limit(30)`.
NOTE: the source chains no `.sort()` here, so the store returns matching
records in its natural order — modelled as list order. -/
def findProducts (store : List ProductRec) (cpred : ProductRec → Bool)
    (pSearch : Option String) : List ProductRec :=
  (store.filter fun r => cpred r && searchFilter pSearch r).take (DEFAULT_PAGE_SIZE + 1)

def index (store : List ProductRec) (findOk countOk : Bool)
    (pSearch afterCursor : Option String) : Except Nat (Page ProductRec) :=
  match cursorFilters afterCursor with
  | .error _ => .error 422
  | .ok cpred =>
    if findOk then
      if countOk then
        .ok (buildPage (fun r => r.id) DEFAULT_PAGE_SIZE
          (findProducts store cpred pSearch)
          ((store.filter (searchFilter pSearch)).length))
      else .error 422
    else .error 422

/-- All records matching the archived+search predicate, in natural store
order (the order the sortless query returns them in). -/
def allMatching (store : List ProductRec) (pSearch : Option String) : List ProductRec :=
  store.filter (searchFilter pSearch)

/-- The untruncated result sequence of the composite (cursor + search) query. -/
def fullMatches (store : List ProductRec) (pSearch afterCursor : Option String) :
    List ProductRec :=
  match cursorFilters afterCursor with
  | .ok cpred => store.filter fun r => cpred r && searchFilter pSearch r
  | .error _ => []

end Products

/-! ## The paging client

The walk the spec's exhaustive-pagination property describes: start with no
cursor, and after each page whose `hasNextPage` is `true` pass its
`endCursor` back as `afterCursor`.  The walk returns `some visited` only if
it reached (within `fuel` requests) a page with `hasNextPage = false`; every
page request is made against the same store with healthy store calls. -/

def walkOrders (store : List OrderRec) (pSearch : Option String) :
    Nat → Option String → Option (List OrderRec)
  | 0, _ => none
  | fuel + 1, cur =>
    match Orders.index store true true pSearch cur with
    | .error _ => none
    | .ok page =>
      if page.pageInfo.hasNextPage then
        match page.pageInfo.endCursor with
        | none => none
        | some c =>
          match walkOrders store pSearch fuel (some c) with
          | some rest => some (page.edges.map (fun e => e.node) ++ rest)
          | none => none
      else some (page.edges.map fun e => e.node)

def walkProducts (store : List ProductRec) (pSearch : Option String) :
    Nat → Option String → Option (List ProductRec)
  | 0, _ => none
  | fuel + 1, cur =>
    match Products.index store true true pSearch cur with
    | .error _ => none
    | .ok page =>
      if page.pageInfo.hasNextPage then
        match page.pageInfo.endCursor with
        | none => none
        | some c =>
          match walkProducts store pSearch fuel (some c) with
          | some rest => some (page.edges.map (fun e => e.node) ++ rest)
          | none => none
      else some (page.edges.map fun e => e.node)

/-- The cursor a client holds after having consumed the first `n` records of
the full result sequence `S`: none before the first page, otherwise the
encoded key of the `n`-th record. -/
def cursorAt {α : Type} (getId : α → Nat) (S : List α) (n : Nat) : Option String :=
  if n = 0 then none else (S[n-1]?).map fun r => encodeCursor (getId r)

/-! ## Correctness of the cursor codec -/

theorem encCharsAux_append (fuel : Nat) :
    ∀ n acc, encCharsAux fuel n acc = encCharsAux fuel n [] ++ acc := by
  induction fuel with
  | zero => intro n acc; simp [encCharsAux]
  | succ fuel ih =>
    intro n acc
    by_cases h : n < 10
    · simp [encCharsAux, h]
    · simp only [encCharsAux, if_neg h]
      rw [ih (n / 10) (digitChar (n % 10) :: acc), ih (n / 10) [digitChar (n % 10)]]
      simp

theorem encCharsAux_fuel :
    ∀ f1 f2 n, n ≤ f1 → n ≤ f2 → encCharsAux f1 n [] = encCharsAux f2 n [] := by
  intro f1
  induction f1 with
  | zero =>
    intro f2 n h1 h2
    have hn : n = 0 := Nat.le_zero.mp h1
    subst hn
    cases f2 <;> simp [encCharsAux]
  | succ f ih =>
    intro f2 n h1 h2
    by_cases h : n < 10
    · cases f2 with
      | zero =>
        have hn : n = 0 := Nat.le_zero.mp h2
        subst hn
        simp [encCharsAux]
      | succ g => simp [encCharsAux, h]
    · have h10 : 10 ≤ n := Nat.not_lt.mp h
      have hdiv : n / 10 < n := Nat.div_lt_self (by omega) (by omega)
      cases f2 with
      | zero => omega
      | succ g =>
        simp only [encCharsAux, if_neg h]
        rw [encCharsAux_append f, encCharsAux_append g,
          ih g (n / 10) (by omega) (by omega)]

theorem encChars_eq (n : Nat) :
    encChars n = if n < 10 then [digitChar n]
      else encChars (n / 10) ++ [digitChar (n % 10)] := by
  by_cases h : n < 10
  · rw [if_pos h]
    cases n with
    | zero => rfl
    | succ m => simp [encChars, encCharsAux, h]
  · rw [if_neg h]
    have h10 : 10 ≤ n := Nat.not_lt.mp h
    have hdiv : n / 10 < n := Nat.div_lt_self (by omega) (by omega)
    cases n with
    | zero => omega
    | succ m =>
      show encCharsAux (m + 1) (m + 1) [] = _
      rw [show encCharsAux (m + 1) (m + 1) [] =
          encCharsAux m ((m + 1) / 10) [digitChar ((m + 1) % 10)] by
            simp [encCharsAux, h]]
      rw [encCharsAux_append m]
      rw [encCharsAux_fuel m ((m + 1) / 10) ((m + 1) / 10) (by omega) (Nat.le_refl _)]
      rfl

theorem digitChar_digit : ∀ d, d < 10 → isDigitChar (digitChar d) = true := by decide

theorem digitVal_digitChar : ∀ d, d < 10 → digitVal (digitChar d) = d := by decide

theorem digitChar_ne_zero : ∀ d, d < 10 → 0 < d → digitChar d ≠ '0' := by decide

theorem isDigitChar_bounds {c : Char} (h : isDigitChar c = true) :
    48 ≤ c.toNat ∧ c.toNat ≤ 57 := by
  simpa [isDigitChar] using h

theorem digitChar_digitVal {c : Char} (h : isDigitChar c = true) :
    digitChar (digitVal c) = c := by
  obtain ⟨h1, h2⟩ := isDigitChar_bounds h
  unfold digitChar digitVal
  rw [show 48 + (c.toNat - 48) = c.toNat by omega, Char.ofNat_toNat]

theorem digitVal_lt {c : Char} (h : isDigitChar c = true) : digitVal c < 10 := by
  obtain ⟨h1, h2⟩ := isDigitChar_bounds h
  unfold digitVal
  omega

theorem digitVal_pos {c : Char} (hd : isDigitChar c = true) (h0 : c ≠ '0') :
    1 ≤ digitVal c := by
  obtain ⟨h1, h2⟩ := isDigitChar_bounds hd
  have : c.toNat ≠ 48 := by
    intro hc
    have h1 : c = Char.ofNat c.toNat := (Char.ofNat_toNat c).symm
    rw [hc] at h1
    exact h0 (h1.trans (by decide))
  unfold digitVal
  omega

theorem decChars_append (cs : List Char) (c : Char) :
    decChars (cs ++ [c]) = decChars cs * 10 + digitVal c := by
  simp [decChars, List.foldl_append]

theorem encChars_ne_nil (n : Nat) : encChars n ≠ [] := by
  rw [encChars_eq]
  split <;> simp

theorem encChars_all (n : Nat) : (encChars n).all isDigitChar = true := by
  induction n using Nat.strong_induction_on with
  | _ n ih =>
    rw [encChars_eq]
    by_cases h : n < 10
    · simp [if_pos h, digitChar_digit n h]
    · have hdiv : n / 10 < n := Nat.div_lt_self (by omega) (by omega)
      simp [if_neg h, List.all_append, ih (n / 10) hdiv,
        digitChar_digit (n % 10) (Nat.mod_lt _ (by omega))]

theorem decChars_encChars (n : Nat) : decChars (encChars n) = n := by
  induction n using Nat.strong_induction_on with
  | _ n ih =>
    rw [encChars_eq]
    by_cases h : n < 10
    · rw [if_pos h]
      show decChars ([] ++ [digitChar n]) = n
      rw [decChars_append]
      simp [decChars, digitVal_digitChar n h]
    · have hdiv : n / 10 < n := Nat.div_lt_self (by omega) (by omega)
      rw [if_neg h, decChars_append, ih (n / 10) hdiv,
        digitVal_digitChar (n % 10) (Nat.mod_lt _ (by omega))]
      omega

theorem encChars_head (n : Nat) (hn : 0 < n) :
    ∀ c cs, encChars n = c :: cs → c ≠ '0' := by
  induction n using Nat.strong_induction_on with
  | _ n ih =>
    intro c cs hccs
    rw [encChars_eq] at hccs
    by_cases h : n < 10
    · rw [if_pos h] at hccs
      cases hccs
      exact digitChar_ne_zero n h hn
    · rw [if_neg h] at hccs
      have hdiv : n / 10 < n := Nat.div_lt_self (by omega) (by omega)
      obtain ⟨a, t, hat⟩ := List.exists_cons_of_ne_nil (encChars_ne_nil (n / 10))
      rw [hat, List.cons_append] at hccs
      injection hccs with h1 _
      subst h1
      exact ih (n / 10) hdiv (Nat.div_pos (by omega) (by omega)) a t hat

theorem wellFormed_encChars (n : Nat) : wellFormedChars (encChars n) = true := by
  obtain ⟨c, cs, hc⟩ := List.exists_cons_of_ne_nil (encChars_ne_nil n)
  have hall : (c :: cs).all isDigitChar = true := by
    rw [← hc]; exact encChars_all n
  rw [hc]
  show ((c :: cs).all isDigitChar && (c != '0' || cs.isEmpty)) = true
  rw [hall, Bool.true_and]
  by_cases h0 : 0 < n
  · have := encChars_head n h0 c cs hc
    simp [this]
  · have hn : n = 0 := by omega
    subst hn
    have h00 : encChars 0 = ['0'] := by rw [encChars_eq]; rfl
    rw [h00] at hc
    cases hc
    simp

theorem decode_encode (k : Nat) : decodeCursor (encodeCursor k) = some k := by
  unfold decodeCursor encodeCursor
  rw [show (String.mk (encChars k)).data = encChars k from rfl]
  rw [wellFormed_encChars k]
  simp [decChars_encChars k]

theorem decChars_ge (t : List Char) : ∀ a : Nat, a ≤ t.foldl (fun x c => x * 10 + digitVal c) a := by
  induction t with
  | nil => intro a; exact Nat.le_refl a
  | cons c t ih =>
    intro a
    calc a ≤ a * 10 + digitVal c := by omega
    _ ≤ _ := ih (a * 10 + digitVal c)

theorem decChars_pos (b : Char) (t : List Char) (hd : isDigitChar b = true)
    (h0 : b ≠ '0') : 1 ≤ decChars (b :: t) := by
  have : decChars (b :: t) = t.foldl (fun x c => x * 10 + digitVal c) (digitVal b) := by
    simp [decChars]
  rw [this]
  exact Nat.le_trans (digitVal_pos hd h0) (decChars_ge t _)

theorem encChars_decChars :
    ∀ l : List Char, l ≠ [] → l.all isDigitChar = true →
      (∀ c cs, l = c :: cs → c ≠ '0' ∨ cs = []) →
      encChars (decChars l) = l := by
  intro l
  induction l using List.reverseRecOn with
  | nil => intro h; exact absurd rfl h
  | append_singleton l a ih =>
    intro _ hall hhead
    rw [List.all_append, Bool.and_eq_true] at hall
    obtain ⟨hlall, ha'⟩ := hall
    have hla : isDigitChar a = true := by simpa using ha'
    by_cases hl : l = []
    · subst hl
      simp only [List.nil_append]
      rw [show decChars [a] = digitVal a by simp [decChars]]
      rw [encChars_eq, if_pos (digitVal_lt hla), digitChar_digitVal hla]
    · obtain ⟨b, t, hbt⟩ := List.exists_cons_of_ne_nil hl
      have hb0 : b ≠ '0' := by
        rcases hhead b (t ++ [a]) (by rw [hbt]; simp) with h | h
        · exact h
        · exact absurd h (by simp)
      have hbd : isDigitChar b = true := by
        rw [hbt, List.all_cons, Bool.and_eq_true] at hlall
        exact hlall.1
      have hpos : 1 ≤ decChars l := by
        rw [hbt]; exact decChars_pos b t hbd hb0
      have hva : digitVal a < 10 := digitVal_lt hla
      rw [decChars_append]
      have h10 : ¬ (decChars l * 10 + digitVal a < 10) := by omega
      rw [encChars_eq, if_neg h10]
      have hdiv : (decChars l * 10 + digitVal a) / 10 = decChars l := by omega
      have hmod : (decChars l * 10 + digitVal a) % 10 = digitVal a := by omega
      rw [hdiv, hmod, digitChar_digitVal hla,
        ih hl hlall (fun c cs hcs => by
          rw [hcs] at hbt
          injection hbt with h1 _
          exact Or.inl (h1 ▸ hb0))]

theorem wellFormed_spec {l : List Char} (h : wellFormedChars l = true) :
    l ≠ [] ∧ l.all isDigitChar = true ∧ (∀ c cs, l = c :: cs → c ≠ '0' ∨ cs = []) := by
  cases l with
  | nil => exact absurd h (by simp [wellFormedChars])
  | cons c cs =>
    simp only [wellFormedChars, Bool.and_eq_true, Bool.or_eq_true, bne_iff_ne,
      List.isEmpty_iff] at h
    refine ⟨by simp, h.1, ?_⟩
    intro c' cs' hcc
    cases hcc
    exact h.2

theorem encode_decode {s : String} {k : Nat} (h : decodeCursor s = some k) :
    encodeCursor k = s := by
  unfold decodeCursor at h
  by_cases hw : wellFormedChars s.data = true
  · rw [if_pos hw] at h
    obtain ⟨h1, h2, h3⟩ := wellFormed_spec hw
    have hk : k = decChars s.data := by
      cases h
      rfl
    subst hk
    unfold encodeCursor
    rw [encChars_decChars s.data h1 h2 h3]
  · rw [if_neg hw] at h
    cases h

/-! ## Page construction -/

/-- What `buildPage` makes of an over-fetched prefix `L.take (N+1)` of the
full result sequence `L`: the edges are the first `N` records of `L`,
`hasNextPage` says whether `L` holds more than `N` records, and the boundary
cursors encode the keys of the first and last edge. -/
theorem buildPage_take {α : Type} (getId : α → Nat) (N : Nat) (L : List α) (t : Nat) :
    buildPage getId N (L.take (N + 1)) t =
      { pageInfo :=
          { endCursor := (L.take N).getLast?.map fun r => encodeCursor (getId r)
            hasNextPage := decide (N < L.length)
            startCursor := (L.take N).head?.map fun r => encodeCursor (getId r) }
        edges := (L.take N).map fun r => { cursor := encodeCursor (getId r), node := r }
        totalCount := t } := by
  have hd : decide (N < (L.take (N + 1)).length) = decide (N < L.length) := by
    rw [decide_eq_decide, List.length_take]
    omega
  have htake :
      (if decide (N < L.length) = true then (L.take (N + 1)).take N else L.take (N + 1))
        = L.take N := by
    by_cases h : N < L.length
    · simp [h, List.take_take]
    · have hle : L.length ≤ N := Nat.not_lt.mp h
      simp [h, List.take_of_length_le hle,
        List.take_of_length_le (Nat.le_trans hle (Nat.le_succ N))]
  simp only [buildPage, gt_iff_lt, hd, htake, List.getLast?_map, List.head?_map,
    Option.map_map]
  rfl

/-! ## Positional behaviour of the cursor predicate on a sorted sequence

If `r` is the record at position `n-1` of the result sequence (the record
whose key the `endCursor` of the already-traversed pages encodes), then the
strict cursor predicate selects exactly the remainder `drop n`. -/

theorem filter_lt_drop :
    ∀ (n : Nat) (M : List OrderRec) (r : OrderRec),
      M.Pairwise (fun a b => b.id < a.id) → 0 < n → M[n - 1]? = some r →
      M.filter (fun x => decide (x.id < r.id)) = M.drop n := by
  intro n
  induction n with
  | zero => intro M r _ h0 _; omega
  | succ m ih =>
    intro M r hp h0 hr
    cases M with
    | nil => simp at hr
    | cons a t =>
      rw [List.pairwise_cons] at hp
      obtain ⟨ha, hpt⟩ := hp
      cases m with
      | zero =>
        have hra : a = r := by simpa using hr
        subst hra
        rw [List.filter_cons]
        have hfa : decide (a.id < a.id) = false := by simp
        rw [hfa]
        simp only [Bool.false_eq_true, if_false]
        rw [List.filter_eq_self.mpr fun x hx => by
          simpa using ha x hx]
        rfl
      | succ j =>
        have hr' : t[j]? = some r := by simpa using hr
        have hmem : r ∈ t := by
          obtain ⟨hj, he⟩ := List.getElem?_eq_some.mp hr'
          exact he ▸ List.getElem_mem hj
        have hra : r.id < a.id := ha r hmem
        rw [List.filter_cons]
        have hfa : decide (a.id < r.id) = false := by
          simp only [decide_eq_false_iff_not]
          omega
        rw [hfa]
        simp only [Bool.false_eq_true, if_false]
        rw [ih t r hpt (by omega) (by simpa using hr)]
        rfl

theorem filter_gt_drop :
    ∀ (n : Nat) (M : List ProductRec) (r : ProductRec),
      M.Pairwise (fun a b => a.id < b.id) → 0 < n → M[n - 1]? = some r →
      M.filter (fun x => decide (r.id < x.id)) = M.drop n := by
  intro n
  induction n with
  | zero => intro M r _ h0 _; omega
  | succ m ih =>
    intro M r hp h0 hr
    cases M with
    | nil => simp at hr
    | cons a t =>
      rw [List.pairwise_cons] at hp
      obtain ⟨ha, hpt⟩ := hp
      cases m with
      | zero =>
        have hra : a = r := by simpa using hr
        subst hra
        rw [List.filter_cons]
        have hfa : decide (a.id < a.id) = false := by simp
        rw [hfa]
        simp only [Bool.false_eq_true, if_false]
        rw [List.filter_eq_self.mpr fun x hx => by
          simpa using ha x hx]
        rfl
      | succ j =>
        have hr' : t[j]? = some r := by simpa using hr
        have hmem : r ∈ t := by
          obtain ⟨hj, he⟩ := List.getElem?_eq_some.mp hr'
          exact he ▸ List.getElem_mem hj
        have hra : a.id < r.id := ha r hmem
        rw [List.filter_cons]
        have hfa : decide (r.id < a.id) = false := by
          simp only [decide_eq_false_iff_not]
          omega
        rw [hfa]
        simp only [Bool.false_eq_true, if_false]
        rw [ih t r hpt (by omega) (by simpa using hr)]
        rfl

/-! ## The sorted result sequence of the orders query -/

/-- Sorting a list of records with pairwise-distinct keys descending yields a
strictly descending sequence. -/
theorem sort_pairwise_of_nodup (l : List OrderRec)
    (h : l.Pairwise fun a b => a.id ≠ b.id) :
    (List.insertionSort Orders.descLe l).Pairwise fun a b => b.id < a.id := by
  have hs : List.Sorted Orders.descLe (List.insertionSort Orders.descLe l) :=
    List.sorted_insertionSort _ l
  have hperm := List.perm_insertionSort Orders.descLe l
  have hne : (List.insertionSort Orders.descLe l).Pairwise fun a b => a.id ≠ b.id :=
    ((List.Perm.pairwise_iff fun hxy => hxy.symm) hperm).mpr h
  exact (List.Pairwise.and hs hne).imp fun hab => by
    have h1 : _ ≤ _ := hab.1
    have h2 := hab.2
    omega

/-- With distinct keys, sorting the conjunctively-filtered store is the same
as filtering the sorted search-filtered store: the per-page query result is a
filtered view of the full result sequence. -/
theorem orders_sort_filter (store : List OrderRec) (pS : Option String)
    (p : OrderRec → Bool) (hids : store.Pairwise fun a b => a.id ≠ b.id) :
    List.insertionSort Orders.descLe
        (store.filter fun r => p r && Orders.searchFilter pS r)
      = (Orders.allMatching store pS).filter p := by
  haveI : IsAntisymm OrderRec fun a b => b.id < a.id :=
    ⟨fun a b h1 h2 => absurd (Nat.lt_trans h1 h2) (Nat.lt_irrefl _)⟩
  have hidsL : (store.filter fun r => p r && Orders.searchFilter pS r).Pairwise
      fun a b => a.id ≠ b.id :=
    List.Pairwise.sublist (List.filter_sublist store) hids
  have hidsR : (store.filter (Orders.searchFilter pS)).Pairwise
      fun a b => a.id ≠ b.id :=
    List.Pairwise.sublist (List.filter_sublist store) hids
  have hsortL := sort_pairwise_of_nodup _ hidsL
  have hsortR : ((Orders.allMatching store pS).filter p).Pairwise
      fun a b => b.id < a.id :=
    List.Pairwise.sublist (List.filter_sublist _) (sort_pairwise_of_nodup _ hidsR)
  have hpermL := List.perm_insertionSort Orders.descLe
    (store.filter fun r => p r && Orders.searchFilter pS r)
  have hpermR : ((Orders.allMatching store pS).filter p).Perm
      (store.filter fun r => p r && Orders.searchFilter pS r) := by
    have h1 : ((Orders.allMatching store pS).filter p).Perm
        ((store.filter (Orders.searchFilter pS)).filter p) :=
      List.Perm.filter p (List.perm_insertionSort _ _)
    rw [List.filter_filter] at h1
    exact h1
  exact List.eq_of_perm_of_sorted (hpermL.trans hpermR.symm) hsortL hsortR

/-- The products query applies no sort, so the per-page query result is the
corresponding filtered view of the natural-order result sequence. -/
theorem products_filter_comm (store : List ProductRec) (pS : Option String)
    (p : ProductRec → Bool) :
    (store.filter fun r => p r && Products.searchFilter pS r)
      = (Products.allMatching store pS).filter p := by
  unfold Products.allMatching
  rw [List.filter_filter]

/-- A strictly ascending store stays strictly ascending after the search
filter. -/
theorem products_allMatching_pairwise (store : List ProductRec) (pS : Option String)
    (hasc : store.Pairwise fun a b => a.id < b.id) :
    (Products.allMatching store pS).Pairwise fun a b => a.id < b.id :=
  List.Pairwise.sublist (List.filter_sublist store) hasc

/-- Orders result sequences are strictly descending when store keys are
distinct. -/
theorem orders_allMatching_pairwise (store : List OrderRec) (pS : Option String)
    (hids : store.Pairwise fun a b => a.id ≠ b.id) :
    (Orders.allMatching store pS).Pairwise fun a b => b.id < a.id :=
  sort_pairwise_of_nodup _ (List.Pairwise.sublist (List.filter_sublist store) hids)

/-! ## Evaluating the handlers -/

theorem orders_cursorFilters_encode (k : Nat) :
    Orders.cursorFilters (some (encodeCursor k)) = .ok fun r => decide (r.id < k) := by
  have h1 : encodeCursor k ≠ "" := fun hmk =>
    encChars_ne_nil k (congrArg String.data hmk)
  have h2 : (encodeCursor k == "") = false := beq_eq_false_iff_ne.mpr h1
  simp [Orders.cursorFilters, h2, decode_encode k]

theorem products_cursorFilters_encode (k : Nat) :
    Products.cursorFilters (some (encodeCursor k)) = .ok fun r => decide (k < r.id) := by
  have h1 : encodeCursor k ≠ "" := fun hmk =>
    encChars_ne_nil k (congrArg String.data hmk)
  have h2 : (encodeCursor k == "") = false := beq_eq_false_iff_ne.mpr h1
  simp [Products.cursorFilters, h2, decode_encode k]

theorem orders_index_ok (store : List OrderRec) (pS afterCursor : Option String)
    (cpred : OrderRec → Bool) (h : Orders.cursorFilters afterCursor = .ok cpred) :
    Orders.index store true true pS afterCursor
      = .ok (buildPage (fun r => r.id) Orders.DEFAULT_PAGE_SIZE
          (Orders.findOrders store cpred pS)
          ((store.filter (Orders.searchFilter pS)).length)) := by
  simp [Orders.index, h]

theorem products_index_ok (store : List ProductRec) (pS afterCursor : Option String)
    (cpred : ProductRec → Bool) (h : Products.cursorFilters afterCursor = .ok cpred) :
    Products.index store true true pS afterCursor
      = .ok (buildPage (fun r => r.id) Products.DEFAULT_PAGE_SIZE
          (Products.findProducts store cpred pS)
          ((store.filter (Products.searchFilter pS)).length)) := by
  simp [Products.index, h]

/-! ## Pages at a traversal position -/

theorem orders_page_at (store : List OrderRec) (pS : Option String)
    (hids : store.Pairwise fun a b => a.id ≠ b.id) (n : Nat)
    (hn : n ≤ (Orders.allMatching store pS).length) :
    Orders.index store true true pS
        (cursorAt (fun r => r.id) (Orders.allMatching store pS) n)
      = .ok (buildPage (fun r => r.id) Orders.DEFAULT_PAGE_SIZE
          (((Orders.allMatching store pS).drop n).take (Orders.DEFAULT_PAGE_SIZE + 1))
          ((store.filter (Orders.searchFilter pS)).length)) := by
  cases n with
  | zero =>
    rw [show cursorAt (fun r : OrderRec => r.id) (Orders.allMatching store pS) 0 = none
      from rfl]
    rw [orders_index_ok store pS none (fun _ => true) rfl]
    unfold Orders.findOrders
    rw [orders_sort_filter store pS (fun _ => true) hids, List.filter_true, List.drop_zero]
  | succ m =>
    have hm : m < (Orders.allMatching store pS).length := by omega
    rw [show cursorAt (fun r : OrderRec => r.id) (Orders.allMatching store pS) (m + 1)
        = some (encodeCursor (Orders.allMatching store pS)[m].id) by
      unfold cursorAt
      simp [List.getElem?_eq_getElem hm]]
    rw [orders_index_ok store pS _ _ (orders_cursorFilters_encode _)]
    unfold Orders.findOrders
    rw [orders_sort_filter store pS _ hids,
      filter_lt_drop (m + 1) _ _ (orders_allMatching_pairwise store pS hids)
        (Nat.succ_pos m) (List.getElem?_eq_getElem hm)]

theorem products_page_at (store : List ProductRec) (pS : Option String)
    (hasc : store.Pairwise fun a b => a.id < b.id) (n : Nat)
    (hn : n ≤ (Products.allMatching store pS).length) :
    Products.index store true true pS
        (cursorAt (fun r => r.id) (Products.allMatching store pS) n)
      = .ok (buildPage (fun r => r.id) Products.DEFAULT_PAGE_SIZE
          (((Products.allMatching store pS).drop n).take (Products.DEFAULT_PAGE_SIZE + 1))
          ((store.filter (Products.searchFilter pS)).length)) := by
  cases n with
  | zero =>
    rw [show cursorAt (fun r : ProductRec => r.id) (Products.allMatching store pS) 0 = none
      from rfl]
    rw [products_index_ok store pS none (fun _ => true) rfl]
    unfold Products.findProducts
    rw [products_filter_comm store pS (fun _ => true), List.filter_true, List.drop_zero]
  | succ m =>
    have hm : m < (Products.allMatching store pS).length := by omega
    rw [show cursorAt (fun r : ProductRec => r.id) (Products.allMatching store pS) (m + 1)
        = some (encodeCursor (Products.allMatching store pS)[m].id) by
      unfold cursorAt
      simp [List.getElem?_eq_getElem hm]]
    rw [products_index_ok store pS _ _ (products_cursorFilters_encode _)]
    unfold Products.findProducts
    rw [products_filter_comm store pS _,
      filter_gt_drop (m + 1) _ _ (products_allMatching_pairwise store pS hasc)
        (Nat.succ_pos m) (List.getElem?_eq_getElem hm)]

/-! ## Exhaustive traversal -/

theorem walkOrders_drop (store : List OrderRec) (pS : Option String)
    (hids : store.Pairwise fun a b => a.id ≠ b.id) :
    ∀ (fuel n : Nat), n ≤ (Orders.allMatching store pS).length →
      (Orders.allMatching store pS).length - n < fuel →
      walkOrders store pS fuel (cursorAt (fun r => r.id) (Orders.allMatching store pS) n)
        = some ((Orders.allMatching store pS).drop n) := by
  intro fuel
  induction fuel with
  | zero => intro n h1 h2; omega
  | succ fuel ih =>
    intro n h1 h2
    have hD : 1 ≤ Orders.DEFAULT_PAGE_SIZE := by decide
    have hpage := orders_page_at store pS hids n h1
    rw [buildPage_take] at hpage
    have hcomp : ((fun e : Edge OrderRec => e.node) ∘ fun r : OrderRec =>
        ({ cursor := encodeCursor r.id, node := r } : Edge OrderRec)) = id := rfl
    simp only [walkOrders, hpage]
    by_cases hmore : Orders.DEFAULT_PAGE_SIZE < (Orders.allMatching store pS).length - n
    · have hget : (((Orders.allMatching store pS).drop n).take
          Orders.DEFAULT_PAGE_SIZE).getLast?
          = some ((Orders.allMatching store pS).get
              ⟨n + (Orders.DEFAULT_PAGE_SIZE - 1), by omega⟩) := by
        rw [List.getLast?_eq_getElem?]
        have hlen : (((Orders.allMatching store pS).drop n).take
            Orders.DEFAULT_PAGE_SIZE).length = Orders.DEFAULT_PAGE_SIZE := by
          rw [List.length_take, List.length_drop]
          omega
        rw [hlen, List.getElem?_take, if_pos (by omega), List.getElem?_drop]
        exact List.getElem?_eq_getElem _
      have hnext : n + Orders.DEFAULT_PAGE_SIZE ≤ (Orders.allMatching store pS).length := by
        omega
      have hrec := ih (n + Orders.DEFAULT_PAGE_SIZE) hnext (by omega)
      have hcur : cursorAt (fun r : OrderRec => r.id) (Orders.allMatching store pS)
          (n + Orders.DEFAULT_PAGE_SIZE)
          = some (encodeCursor
              ((Orders.allMatching store pS).get
                ⟨n + (Orders.DEFAULT_PAGE_SIZE - 1), by omega⟩).id) := by
        unfold cursorAt
        rw [if_neg (by omega)]
        rw [show n + Orders.DEFAULT_PAGE_SIZE - 1 = n + (Orders.DEFAULT_PAGE_SIZE - 1) by
          omega]
        rw [List.getElem?_eq_getElem (by omega)]
        rfl
      rw [hcur] at hrec
      have htrue : decide (Orders.DEFAULT_PAGE_SIZE
          < (Orders.allMatching store pS).length - n) = true := decide_eq_true hmore
      simp only [List.length_drop, htrue, if_true, hget, Option.map_some', hrec,
        List.map_map, hcomp, List.map_id]
      rw [← List.drop_drop Orders.DEFAULT_PAGE_SIZE n, List.take_append_drop]
    · have hfalse : decide (Orders.DEFAULT_PAGE_SIZE
          < (Orders.allMatching store pS).length - n) = false :=
        decide_eq_false_iff_not.mpr hmore
      simp only [List.length_drop, hfalse, Bool.false_eq_true, if_false,
        List.map_map, hcomp, List.map_id]
      rw [List.take_of_length_le (by rw [List.length_drop]; omega)]

theorem walkProducts_drop (store : List ProductRec) (pS : Option String)
    (hasc : store.Pairwise fun a b => a.id < b.id) :
    ∀ (fuel n : Nat), n ≤ (Products.allMatching store pS).length →
      (Products.allMatching store pS).length - n < fuel →
      walkProducts store pS fuel (cursorAt (fun r => r.id) (Products.allMatching store pS) n)
        = some ((Products.allMatching store pS).drop n) := by
  intro fuel
  induction fuel with
  | zero => intro n h1 h2; omega
  | succ fuel ih =>
    intro n h1 h2
    have hD : 1 ≤ Products.DEFAULT_PAGE_SIZE := by decide
    have hpage := products_page_at store pS hasc n h1
    rw [buildPage_take] at hpage
    have hcomp : ((fun e : Edge ProductRec => e.node) ∘ fun r : ProductRec =>
        ({ cursor := encodeCursor r.id, node := r } : Edge ProductRec)) = id := rfl
    simp only [walkProducts, hpage]
    by_cases hmore : Products.DEFAULT_PAGE_SIZE < (Products.allMatching store pS).length - n
    · have hget : (((Products.allMatching store pS).drop n).take
          Products.DEFAULT_PAGE_SIZE).getLast?
          = some ((Products.allMatching store pS).get
              ⟨n + (Products.DEFAULT_PAGE_SIZE - 1), by omega⟩) := by
        rw [List.getLast?_eq_getElem?]
        have hlen : (((Products.allMatching store pS).drop n).take
            Products.DEFAULT_PAGE_SIZE).length = Products.DEFAULT_PAGE_SIZE := by
          rw [List.length_take, List.length_drop]
          omega
        rw [hlen, List.getElem?_take, if_pos (by omega), List.getElem?_drop]
        exact List.getElem?_eq_getElem _
      have hnext : n + Products.DEFAULT_PAGE_SIZE ≤ (Products.allMatching store pS).length := by
        omega
      have hrec := ih (n + Products.DEFAULT_PAGE_SIZE) hnext (by omega)
      have hcur : cursorAt (fun r : ProductRec => r.id) (Products.allMatching store pS)
          (n + Products.DEFAULT_PAGE_SIZE)
          = some (encodeCursor
              ((Products.allMatching store pS).get
                ⟨n + (Products.DEFAULT_PAGE_SIZE - 1), by omega⟩).id) := by
        unfold cursorAt
        rw [if_neg (by omega)]
        rw [show n + Products.DEFAULT_PAGE_SIZE - 1 = n + (Products.DEFAULT_PAGE_SIZE - 1) by
          omega]
        rw [List.getElem?_eq_getElem (by omega)]
        rfl
      rw [hcur] at hrec
      have htrue : decide (Products.DEFAULT_PAGE_SIZE
          < (Products.allMatching store pS).length - n) = true := decide_eq_true hmore
      simp only [List.length_drop, htrue, if_true, hget, Option.map_some', hrec,
        List.map_map, hcomp, List.map_id]
      rw [← List.drop_drop Products.DEFAULT_PAGE_SIZE n, List.take_append_drop]
    · have hfalse : decide (Products.DEFAULT_PAGE_SIZE
          < (Products.allMatching store pS).length - n) = false :=
        decide_eq_false_iff_not.mpr hmore
      simp only [List.length_drop, hfalse, Bool.false_eq_true, if_false,
        List.map_map, hcomp, List.map_id]
      rw [List.take_of_length_le (by rw [List.length_drop]; omega)]

/-! ## Inverting a successful response -/

theorem orders_index_ok_inv {store : List OrderRec} {fo co : Bool}
    {pS ac : Option String} {p : Page OrderRec}
    (h : Orders.index store fo co pS ac = .ok p) :
    ∃ cpred, Orders.cursorFilters ac = .ok cpred ∧ fo = true ∧ co = true ∧
      p = buildPage (fun r => r.id) Orders.DEFAULT_PAGE_SIZE
            (Orders.findOrders store cpred pS)
            ((store.filter (Orders.searchFilter pS)).length) := by
  unfold Orders.index at h
  cases hc : Orders.cursorFilters ac with
  | error e => rw [hc] at h; cases h
  | ok cpred =>
    rw [hc] at h
    cases fo with
    | false => cases h
    | true =>
      cases co with
      | false => cases h
      | true =>
        injection h with h
        exact ⟨cpred, rfl, rfl, rfl, h.symm⟩

theorem products_index_ok_inv {store : List ProductRec} {fo co : Bool}
    {pS ac : Option String} {p : Page ProductRec}
    (h : Products.index store fo co pS ac = .ok p) :
    ∃ cpred, Products.cursorFilters ac = .ok cpred ∧ fo = true ∧ co = true ∧
      p = buildPage (fun r => r.id) Products.DEFAULT_PAGE_SIZE
            (Products.findProducts store cpred pS)
            ((store.filter (Products.searchFilter pS)).length) := by
  unfold Products.index at h
  cases hc : Products.cursorFilters ac with
  | error e => rw [hc] at h; cases h
  | ok cpred =>
    rw [hc] at h
    cases fo with
    | false => cases h
    | true =>
      cases co with
      | false => cases h
      | true =>
        injection h with h
        exact ⟨cpred, rfl, rfl, rfl, h.symm⟩

theorem orders_ok_spec {store : List OrderRec} {fo co : Bool}
    {pS ac : Option String} {p : Page OrderRec}
    (h : Orders.index store fo co pS ac = .ok p) :
    p.edges.map (fun e => e.node)
        = (Orders.fullMatches store pS ac).take Orders.DEFAULT_PAGE_SIZE ∧
      p.pageInfo.hasNextPage
        = decide (Orders.DEFAULT_PAGE_SIZE < (Orders.fullMatches store pS ac).length) ∧
      p.totalCount = (store.filter (Orders.searchFilter pS)).length := by
  obtain ⟨cpred, hc, hfo, hco, hp⟩ := orders_index_ok_inv h
  have hfm : Orders.findOrders store cpred pS
      = (Orders.fullMatches store pS ac).take (Orders.DEFAULT_PAGE_SIZE + 1) := by
    unfold Orders.findOrders Orders.fullMatches
    rw [hc]
  subst hp
  rw [hfm, buildPage_take]
  refine ⟨?_, rfl, rfl⟩
  rw [List.map_map]
  rw [show ((fun e : Edge OrderRec => e.node) ∘ fun r : OrderRec =>
      ({ cursor := encodeCursor r.id, node := r } : Edge OrderRec)) = id from rfl]
  rw [List.map_id]

theorem products_ok_spec {store : List ProductRec} {fo co : Bool}
    {pS ac : Option String} {p : Page ProductRec}
    (h : Products.index store fo co pS ac = .ok p) :
    p.edges.map (fun e => e.node)
        = (Products.fullMatches store pS ac).take Products.DEFAULT_PAGE_SIZE ∧
      p.pageInfo.hasNextPage
        = decide (Products.DEFAULT_PAGE_SIZE < (Products.fullMatches store pS ac).length) ∧
      p.totalCount = (store.filter (Products.searchFilter pS)).length := by
  obtain ⟨cpred, hc, hfo, hco, hp⟩ := products_index_ok_inv h
  have hfm : Products.findProducts store cpred pS
      = (Products.fullMatches store pS ac).take (Products.DEFAULT_PAGE_SIZE + 1) := by
    unfold Products.findProducts Products.fullMatches
    rw [hc]
  subst hp
  rw [hfm, buildPage_take]
  refine ⟨?_, rfl, rfl⟩
  rw [List.map_map]
  rw [show ((fun e : Edge ProductRec => e.node) ∘ fun r : ProductRec =>
      ({ cursor := encodeCursor r.id, node := r } : Edge ProductRec)) = id from rfl]
  rw [List.map_id]

theorem orders_fullMatches_none (store : List OrderRec) (pS : Option String) :
    Orders.fullMatches store pS none = Orders.allMatching store pS := by
  show List.insertionSort Orders.descLe
      (store.filter fun r => true && Orders.searchFilter pS r) = _
  simp only [Bool.true_and]
  rfl

theorem products_fullMatches_none (store : List ProductRec) (pS : Option String) :
    Products.fullMatches store pS none = Products.allMatching store pS := by
  show (store.filter fun r => true && Products.searchFilter pS r) = _
  simp only [Bool.true_and]
  rfl

/-! ## The claims -/

/-- C1 —: for a fixed search filter and a fixed record set, walking a list
endpoint's pages — no cursor first, then repeatedly `afterCursor := endCursor`
— succeeds and visits exactly the full matching sequence (`allMatching`), in
response order, ending on a page with `hasNextPage = false` (the walk returns
`some _` only through such a page).  The matching sequences are strictly
monotone in the ordering key, so every record is visited exactly once.
Hypotheses: order keys are pairwise distinct, and the products store — whose
query requests no sort — holds its records in ascending key order (the
spec's OrderingKey invariant: keys increase with insertion order). -/
theorem claim1_exhaustive_pagination
    (ostore : List OrderRec) (pstore : List ProductRec) (oS pS : Option String)
    (hids : ostore.Pairwise fun a b => a.id ≠ b.id)
    (hasc : pstore.Pairwise fun a b => a.id < b.id) :
    walkOrders ostore oS (ostore.length + 1) none
        = some (Orders.allMatching ostore oS) ∧
      (Orders.allMatching ostore oS).Pairwise (fun a b => b.id < a.id) ∧
      walkProducts pstore pS (pstore.length + 1) none
        = some (Products.allMatching pstore pS) ∧
      (Products.allMatching pstore pS).Pairwise (fun a b => a.id < b.id) := by
  refine ⟨?_, orders_allMatching_pairwise _ _ hids, ?_,
    products_allMatching_pairwise _ _ hasc⟩
  · have hlen : (Orders.allMatching ostore oS).length ≤ ostore.length := by
      unfold Orders.allMatching
      calc (List.insertionSort Orders.descLe (ostore.filter (Orders.searchFilter oS))).length
          = (ostore.filter (Orders.searchFilter oS)).length :=
            (List.perm_insertionSort _ _).length_eq
        _ ≤ ostore.length := List.length_filter_le _ _
    have h := walkOrders_drop ostore oS hids (ostore.length + 1) 0 (by omega) (by omega)
    rw [show cursorAt (fun r : OrderRec => r.id) (Orders.allMatching ostore oS) 0 = none
      from rfl, List.drop_zero] at h
    exact h
  · have hlen : (Products.allMatching pstore pS).length ≤ pstore.length :=
      List.length_filter_le _ _
    have h := walkProducts_drop pstore pS hasc (pstore.length + 1) 0 (by omega) (by omega)
    rw [show cursorAt (fun r : ProductRec => r.id) (Products.allMatching pstore pS) 0 = none
      from rfl, List.drop_zero] at h
    exact h

/-- C1 witness —: the theorem applied to a concrete two-record store for
each entity. -/
theorem claim1_witness :
    walkOrders [⟨2, 1, false⟩, ⟨1, 1, false⟩] none 3 none
        = some (Orders.allMatching [⟨2, 1, false⟩, ⟨1, 1, false⟩] none) ∧
      (Orders.allMatching [⟨2, 1, false⟩, ⟨1, 1, false⟩] none).Pairwise
        (fun a b => b.id < a.id) ∧
      walkProducts [⟨1, "a", false⟩, ⟨2, "b", false⟩] none 3 none
        = some (Products.allMatching [⟨1, "a", false⟩, ⟨2, "b", false⟩] none) ∧
      (Products.allMatching [⟨1, "a", false⟩, ⟨2, "b", false⟩] none).Pairwise
        (fun a b => a.id < b.id) :=
  claim1_exhaustive_pagination _ _ none none (by decide) (by decide)

/-- C2 counterexample —: the claim says the products store query asks for
records in ascending `_id` order.  The products query chains no `.sort()`, so
records come back in the store's natural order: with natural order
`[id 2, id 1]` the response edges are `[2, 1]`, which is not ascending. -/
theorem claim2_counterexample :
    (Products.index [⟨2, "b", false⟩, ⟨1, "a", false⟩] true true none none).map
        (fun p => p.edges.map fun e => e.node.id) = .ok [2, 1] ∧
      ¬ List.Pairwise (fun a b : Nat => a ≤ b) [2, 1] := by
  constructor
  · rfl
  · decide

/-- C2 (amended) —: the orders query asks for up to `pageSize+1` records
sorted descending by `_id`, so a successful orders response has its edges in
descending key order; the products query asks for up to `pageSize+1` records
with no sort clause, so a successful products response has its edges in the
store's natural order (a sublist of the store sequence). -/
theorem claim2_amended_query_order :
    (∀ (store : List OrderRec) (fo co : Bool) (pS ac : Option String) (p : Page OrderRec),
        Orders.index store fo co pS ac = .ok p →
          List.Pairwise (fun a b => Orders.descLe a b) (p.edges.map fun e => e.node)) ∧
      (∀ (store : List OrderRec) (cpred : OrderRec → Bool) (pS : Option String),
        (Orders.findOrders store cpred pS).length ≤ Orders.DEFAULT_PAGE_SIZE + 1) ∧
      (∀ (store : List ProductRec) (fo co : Bool) (pS ac : Option String) (p : Page ProductRec),
        Products.index store fo co pS ac = .ok p →
          (p.edges.map fun e => e.node).Sublist store) ∧
      (∀ (store : List ProductRec) (cpred : ProductRec → Bool) (pS : Option String),
        (Products.findProducts store cpred pS).length ≤ Products.DEFAULT_PAGE_SIZE + 1) := by
  refine ⟨?_, ?_, ?_, ?_⟩
  · intro store fo co pS ac p h
    obtain ⟨he, _, _⟩ := orders_ok_spec h
    rw [he]
    have hsorted : List.Sorted Orders.descLe (Orders.fullMatches store pS ac) := by
      unfold Orders.fullMatches
      cases Orders.cursorFilters ac with
      | ok cpred => exact List.sorted_insertionSort _ _
      | error e => exact List.sorted_nil
    exact List.Pairwise.sublist (List.take_sublist _ _) hsorted
  · intro store cpred pS
    unfold Orders.findOrders
    rw [List.length_take]
    omega
  · intro store fo co pS ac p h
    obtain ⟨he, _, _⟩ := products_ok_spec h
    rw [he]
    have hsub : (Products.fullMatches store pS ac).Sublist store := by
      unfold Products.fullMatches
      cases Products.cursorFilters ac with
      | ok cpred => exact List.filter_sublist store
      | error e => exact List.nil_sublist store
    exact (List.take_sublist _ _).trans hsub
  · intro store cpred pS
    unfold Products.findProducts
    rw [List.length_take]
    omega

/-- C2 (amended) witness —: the sortedness clause applied to a concrete
successful orders run. -/
theorem claim2_amended_witness :
    List.Pairwise (fun a b => Orders.descLe a b)
      (({ pageInfo := { endCursor := some (encodeCursor 1), hasNextPage := false,
                        startCursor := some (encodeCursor 1) },
          edges := [{ cursor := encodeCursor 1, node := ⟨1, 1, false⟩ }],
          totalCount := 1 } : Page OrderRec).edges.map fun e => e.node) :=
  claim2_amended_query_order.1 [⟨1, 1, false⟩] true true none none _ (by rfl)

/-- C3 —: in a successful response, `hasNextPage` is true exactly when the
untruncated composite-query result holds more than `pageSize` records, and
the edges are exactly the first `pageSize` records of that result in store
order (so the over-fetched `pageSize+1`-st record is dropped and never
exposed, and when at most `pageSize` match, all of them become edges). -/
theorem claim3_has_next_page_trim :
    (∀ (store : List OrderRec) (fo co : Bool) (pS ac : Option String) (p : Page OrderRec),
        Orders.index store fo co pS ac = .ok p →
          p.pageInfo.hasNextPage
              = decide (Orders.DEFAULT_PAGE_SIZE < (Orders.fullMatches store pS ac).length) ∧
            p.edges.map (fun e => e.node)
              = (Orders.fullMatches store pS ac).take Orders.DEFAULT_PAGE_SIZE) ∧
      (∀ (store : List ProductRec) (fo co : Bool) (pS ac : Option String) (p : Page ProductRec),
        Products.index store fo co pS ac = .ok p →
          p.pageInfo.hasNextPage
              = decide (Products.DEFAULT_PAGE_SIZE < (Products.fullMatches store pS ac).length) ∧
            p.edges.map (fun e => e.node)
              = (Products.fullMatches store pS ac).take Products.DEFAULT_PAGE_SIZE) := by
  constructor
  · intro store fo co pS ac p h
    obtain ⟨he, hn, _⟩ := orders_ok_spec h
    exact ⟨hn, he⟩
  · intro store fo co pS ac p h
    obtain ⟨he, hn, _⟩ := products_ok_spec h
    exact ⟨hn, he⟩

/-- C3 witness —: the orders clause applied to a concrete run. -/
theorem claim3_witness :
    ({ pageInfo := { endCursor := some (encodeCursor 3), hasNextPage := false,
                     startCursor := some (encodeCursor 3) },
       edges := [{ cursor := encodeCursor 3, node := ⟨3, 1, false⟩ }],
       totalCount := 1 } : Page OrderRec).pageInfo.hasNextPage
        = decide (Orders.DEFAULT_PAGE_SIZE
            < (Orders.fullMatches [⟨3, 1, false⟩] none none).length) ∧
      ({ pageInfo := { endCursor := some (encodeCursor 3), hasNextPage := false,
                       startCursor := some (encodeCursor 3) },
         edges := [{ cursor := encodeCursor 3, node := ⟨3, 1, false⟩ }],
         totalCount := 1 } : Page OrderRec).edges.map (fun e => e.node)
        = (Orders.fullMatches [⟨3, 1, false⟩] none none).take Orders.DEFAULT_PAGE_SIZE :=
  claim3_has_next_page_trim.1 [⟨3, 1, false⟩] true true none none _ (by rfl)

/-- C4 —: a successful response never carries more than the configured
page size of edges: 30 for the orders listing and 29 for the products
listing. -/
theorem claim4_page_size_bound :
    (∀ (store : List OrderRec) (fo co : Bool) (pS ac : Option String) (p : Page OrderRec),
        Orders.index store fo co pS ac = .ok p → p.edges.length ≤ 30) ∧
      (∀ (store : List ProductRec) (fo co : Bool) (pS ac : Option String) (p : Page ProductRec),
        Products.index store fo co pS ac = .ok p → p.edges.length ≤ 29) := by
  constructor
  · intro store fo co pS ac p h
    obtain ⟨he, _, _⟩ := orders_ok_spec h
    have : (p.edges.map fun e => e.node).length ≤ 30 := by
      rw [he, List.length_take]
      have : Orders.DEFAULT_PAGE_SIZE = 30 := rfl
      omega
    rwa [List.length_map] at this
  · intro store fo co pS ac p h
    obtain ⟨he, _, _⟩ := products_ok_spec h
    have : (p.edges.map fun e => e.node).length ≤ 29 := by
      rw [he, List.length_take]
      have : Products.DEFAULT_PAGE_SIZE = 29 := rfl
      omega
    rwa [List.length_map] at this

/-- C4 witness —: the bound applied to a concrete orders run. -/
theorem claim4_witness :
    ({ pageInfo := { endCursor := some (encodeCursor 4), hasNextPage := false,
                     startCursor := some (encodeCursor 4) },
       edges := [{ cursor := encodeCursor 4, node := ⟨4, 2, false⟩ }],
       totalCount := 1 } : Page OrderRec).edges.length ≤ 30 :=
  claim4_page_size_bound.1 [⟨4, 2, false⟩] true true none none _ (by rfl)

/-- C5 —: a page fetched with a decodable `afterCursor` never contains the
record whose key the cursor encodes: the cursor predicate is strict
(`_id < key` for the descending orders listing, `_id > key` for the
ascending products listing). -/
theorem claim5_cursor_exclusive :
    (∀ (store : List OrderRec) (fo co : Bool) (pS : Option String) (c : String) (k : Nat)
        (p : Page OrderRec) (e : Edge OrderRec),
        decodeCursor c = some k → Orders.index store fo co pS (some c) = .ok p →
        e ∈ p.edges → e.node.id ≠ k) ∧
      (∀ (store : List ProductRec) (fo co : Bool) (pS : Option String) (c : String) (k : Nat)
        (p : Page ProductRec) (e : Edge ProductRec),
        decodeCursor c = some k → Products.index store fo co pS (some c) = .ok p →
        e ∈ p.edges → e.node.id ≠ k) := by
  constructor
  · intro store fo co pS c k p e hdec hok he
    have hcne : c ≠ "" := by
      intro hc
      subst hc
      rw [show decodeCursor "" = none from rfl] at hdec
      cases hdec
    have hc0 : (c == "") = false := beq_eq_false_iff_ne.mpr hcne
    have hcf : Orders.cursorFilters (some c) = .ok fun r => decide (r.id < k) := by
      simp [Orders.cursorFilters, hc0, hdec]
    obtain ⟨he2, _, _⟩ := orders_ok_spec hok
    have hmem : e.node ∈ (Orders.fullMatches store pS (some c)).take
        Orders.DEFAULT_PAGE_SIZE := by
      rw [← he2]
      exact List.mem_map_of_mem _ he
    have hmem2 : e.node ∈ Orders.fullMatches store pS (some c) :=
      List.mem_of_mem_take hmem
    unfold Orders.fullMatches at hmem2
    simp only [hcf] at hmem2
    have hmem3 : e.node ∈ store.filter fun r =>
        decide (r.id < k) && Orders.searchFilter pS r :=
      (List.perm_insertionSort _ _).mem_iff.mp hmem2
    have hf := List.of_mem_filter hmem3
    rw [Bool.and_eq_true] at hf
    have hlt : e.node.id < k := of_decide_eq_true hf.1
    omega
  · intro store fo co pS c k p e hdec hok he
    have hcne : c ≠ "" := by
      intro hc
      subst hc
      rw [show decodeCursor "" = none from rfl] at hdec
      cases hdec
    have hc0 : (c == "") = false := beq_eq_false_iff_ne.mpr hcne
    have hcf : Products.cursorFilters (some c) = .ok fun r => decide (k < r.id) := by
      simp [Products.cursorFilters, hc0, hdec]
    obtain ⟨he2, _, _⟩ := products_ok_spec hok
    have hmem : e.node ∈ (Products.fullMatches store pS (some c)).take
        Products.DEFAULT_PAGE_SIZE := by
      rw [← he2]
      exact List.mem_map_of_mem _ he
    have hmem2 : e.node ∈ Products.fullMatches store pS (some c) :=
      List.mem_of_mem_take hmem
    unfold Products.fullMatches at hmem2
    simp only [hcf] at hmem2
    have hf := List.of_mem_filter hmem2
    rw [Bool.and_eq_true] at hf
    have hlt : k < e.node.id := of_decide_eq_true hf.1
    omega

/-- C5 witness —: a concrete page fetched with cursor `"2"` (the encoding
of key 2) whose only edge carries key 1 ≠ 2. -/
theorem claim5_witness :
    decodeCursor "2" = some 2 ∧
      ({ cursor := encodeCursor 1, node := ⟨1, 1, false⟩ } : Edge OrderRec).node.id ≠ 2 :=
  ⟨by decide,
    claim5_cursor_exclusive.1 [⟨1, 1, false⟩] true true none "2" 2
      { pageInfo := { endCursor := some (encodeCursor 1), hasNextPage := false,
                      startCursor := some (encodeCursor 1) },
        edges := [{ cursor := encodeCursor 1, node := ⟨1, 1, false⟩ }],
        totalCount := 1 }
      { cursor := encodeCursor 1, node := ⟨1, 1, false⟩ }
      (by decide) (by rfl) (by decide)⟩

/-- C6 —: `totalCount` of a successful response is the size of the
archived+search-filtered set, computed without the cursor predicate; two
successful requests that differ only in their `afterCursor` report the same
`totalCount`. -/
theorem claim6_total_count_cursor_free :
    (∀ (store : List OrderRec) (fo co fo2 co2 : Bool) (pS c1 c2 : Option String)
        (p1 p2 : Page OrderRec),
        Orders.index store fo co pS c1 = .ok p1 →
        Orders.index store fo2 co2 pS c2 = .ok p2 →
        p1.totalCount = (store.filter (Orders.searchFilter pS)).length ∧
          p1.totalCount = p2.totalCount) ∧
      (∀ (store : List ProductRec) (fo co fo2 co2 : Bool) (pS c1 c2 : Option String)
        (p1 p2 : Page ProductRec),
        Products.index store fo co pS c1 = .ok p1 →
        Products.index store fo2 co2 pS c2 = .ok p2 →
        p1.totalCount = (store.filter (Products.searchFilter pS)).length ∧
          p1.totalCount = p2.totalCount) := by
  constructor
  · intro store fo co fo2 co2 pS c1 c2 p1 p2 h1 h2
    obtain ⟨_, _, ht1⟩ := orders_ok_spec h1
    obtain ⟨_, _, ht2⟩ := orders_ok_spec h2
    exact ⟨ht1, ht1.trans ht2.symm⟩
  · intro store fo co fo2 co2 pS c1 c2 p1 p2 h1 h2
    obtain ⟨_, _, ht1⟩ := products_ok_spec h1
    obtain ⟨_, _, ht2⟩ := products_ok_spec h2
    exact ⟨ht1, ht1.trans ht2.symm⟩

/-- C6 witness —: first page and page after cursor `"5"` over the same
two-record store report the same total. -/
theorem claim6_witness :
    ({ pageInfo := { endCursor := some (encodeCursor 1), hasNextPage := false,
                     startCursor := some (encodeCursor 5) },
       edges := [{ cursor := encodeCursor 5, node := ⟨5, 1, false⟩ },
                 { cursor := encodeCursor 1, node := ⟨1, 1, false⟩ }],
       totalCount := 2 } : Page OrderRec).totalCount
        = (([⟨1, 1, false⟩, ⟨5, 1, false⟩] : List OrderRec).filter
            (Orders.searchFilter none)).length ∧
      ({ pageInfo := { endCursor := some (encodeCursor 1), hasNextPage := false,
                       startCursor := some (encodeCursor 5) },
         edges := [{ cursor := encodeCursor 5, node := ⟨5, 1, false⟩ },
                   { cursor := encodeCursor 1, node := ⟨1, 1, false⟩ }],
         totalCount := 2 } : Page OrderRec).totalCount
        = ({ pageInfo := { endCursor := some (encodeCursor 1), hasNextPage := false,
                           startCursor := some (encodeCursor 1) },
             edges := [{ cursor := encodeCursor 1, node := ⟨1, 1, false⟩ }],
             totalCount := 2 } : Page OrderRec).totalCount :=
  claim6_total_count_cursor_free.1 [⟨1, 1, false⟩, ⟨5, 1, false⟩] true true true true
    none none (some "5")
    { pageInfo := { endCursor := some (encodeCursor 1), hasNextPage := false,
                    startCursor := some (encodeCursor 5) },
      edges := [{ cursor := encodeCursor 5, node := ⟨5, 1, false⟩ },
                { cursor := encodeCursor 1, node := ⟨1, 1, false⟩ }],
      totalCount := 2 }
    { pageInfo := { endCursor := some (encodeCursor 1), hasNextPage := false,
                    startCursor := some (encodeCursor 1) },
      edges := [{ cursor := encodeCursor 1, node := ⟨1, 1, false⟩ }],
      totalCount := 2 }
    (by rfl) (by rfl)

/-- C7 — (spec-modelled codec): `decode` inverts `encode` on every key, and
`decode` fails on exactly the strings that are not well-formed encodings of a
key (wrong alphabet, wrong structure, empty string). -/
theorem claim7_codec_round_trip :
    (∀ k : Nat, decodeCursor (encodeCursor k) = some k) ∧
      (∀ s : String, decodeCursor s = none ↔ ¬ ∃ k, encodeCursor k = s) := by
  refine ⟨decode_encode, fun s => ⟨?_, ?_⟩⟩
  · rintro hnone ⟨k, hk⟩
    rw [← hk, decode_encode k] at hnone
    cases hnone
  · intro hno
    cases hd : decodeCursor s with
    | none => rfl
    | some k => exact absurd ⟨k, encode_decode hd⟩ hno

/-- C8 —: an absent or empty `afterCursor` is served identically — no
decoding is attempted, no positional constraint is applied, and (with
healthy store calls) the request succeeds as a first page of the
archived+search-filtered sequence. -/
theorem claim8_empty_cursor_first_page :
    ∀ (ostore : List OrderRec) (pstore : List ProductRec) (oS pS : Option String),
      Orders.index ostore true true oS (some "") = Orders.index ostore true true oS none ∧
      (∃ p, Orders.index ostore true true oS none = .ok p ∧
        p.edges.map (fun e => e.node)
          = (Orders.allMatching ostore oS).take Orders.DEFAULT_PAGE_SIZE) ∧
      Products.index pstore true true pS (some "")
          = Products.index pstore true true pS none ∧
      (∃ p, Products.index pstore true true pS none = .ok p ∧
        p.edges.map (fun e => e.node)
          = (Products.allMatching pstore pS).take Products.DEFAULT_PAGE_SIZE) := by
  intro ostore pstore oS pS
  refine ⟨?_, ?_, ?_, ?_⟩
  · unfold Orders.index
    rw [show Orders.cursorFilters (some "") = Orders.cursorFilters none from rfl]
  · obtain ⟨he, _, _⟩ := orders_ok_spec (orders_index_ok ostore oS none (fun _ => true) rfl)
    exact ⟨_, orders_index_ok ostore oS none (fun _ => true) rfl,
      by rw [he, orders_fullMatches_none]⟩
  · unfold Products.index
    rw [show Products.cursorFilters (some "") = Products.cursorFilters none from rfl]
  · obtain ⟨he, _, _⟩ :=
      products_ok_spec (products_index_ok pstore pS none (fun _ => true) rfl)
    exact ⟨_, products_index_ok pstore pS none (fun _ => true) rfl,
      by rw [he, products_fullMatches_none]⟩

/-- C9 —: when cursor decoding fails or either store call fails, the
handler answers with the single generic client-error status 422 and no page
content; a successful answer is always a complete page whose `pageInfo` is
consistent with its edges and which carries the filtered total. -/
theorem claim9_error_or_complete_page :
    ∀ (ostore : List OrderRec) (pstore : List ProductRec) (fo co fo2 co2 : Bool)
      (oS oac pS pac : Option String),
      ((Orders.cursorFilters oac = .error () ∨ fo = false ∨ co = false) →
        Orders.index ostore fo co oS oac = .error 422) ∧
      (∀ p, Orders.index ostore fo co oS oac = .ok p →
        p.pageInfo.endCursor = p.edges.getLast?.map (fun e => e.cursor) ∧
          p.pageInfo.startCursor = p.edges.head?.map (fun e => e.cursor) ∧
          p.totalCount = (ostore.filter (Orders.searchFilter oS)).length) ∧
      ((Products.cursorFilters pac = .error () ∨ fo2 = false ∨ co2 = false) →
        Products.index pstore fo2 co2 pS pac = .error 422) ∧
      (∀ p, Products.index pstore fo2 co2 pS pac = .ok p →
        p.pageInfo.endCursor = p.edges.getLast?.map (fun e => e.cursor) ∧
          p.pageInfo.startCursor = p.edges.head?.map (fun e => e.cursor) ∧
          p.totalCount = (pstore.filter (Products.searchFilter pS)).length) := by
  intro ostore pstore fo co fo2 co2 oS oac pS pac
  refine ⟨?_, ?_, ?_, ?_⟩
  · intro h
    unfold Orders.index
    rcases h with hcf | hfo | hco
    · rw [hcf]
    · subst hfo
      cases Orders.cursorFilters oac <;> rfl
    · subst hco
      cases Orders.cursorFilters oac
      · rfl
      · cases fo <;> rfl
  · intro p h
    obtain ⟨cpred, hc, hfo, hco, hp⟩ := orders_index_ok_inv h
    subst hp
    exact ⟨rfl, rfl, rfl⟩
  · intro h
    unfold Products.index
    rcases h with hcf | hfo | hco
    · rw [hcf]
    · subst hfo
      cases Products.cursorFilters pac <;> rfl
    · subst hco
      cases Products.cursorFilters pac
      · rfl
      · cases fo2 <;> rfl
  · intro p h
    obtain ⟨cpred, hc, hfo, hco, hp⟩ := products_index_ok_inv h
    subst hp
    exact ⟨rfl, rfl, rfl⟩

/-- C9 witness —: a failing count call on the orders side and a failing
find call on the products side both answer 422; a malformed cursor also
answers 422. -/
theorem claim9_witness :
    Orders.index [] true false none none = .error 422 ∧
      Products.index [] false true none none = .error 422 ∧
      Orders.index [] true true none (some "not-a-cursor") = .error 422 :=
  ⟨(claim9_error_or_complete_page [] [] true false false true none none none none).1
      (Or.inr (Or.inr rfl)),
    (claim9_error_or_complete_page [] [] true false false true none none none none).2.2.1
      (Or.inr (Or.inl rfl)),
    (claim9_error_or_complete_page [] [] true true false true none
        (some "not-a-cursor") none none).1
      (Or.inl (by rfl))⟩

/-- C10 —: when the orders `search` parameter does not parse to a nonzero
integer (non-numeric → `NaN`, or `"0"` → `0`, both falsy), the search
predicate is silently dropped: the whole response — query and totalCount —
is exactly the one for no search term at all. -/
theorem claim10_search_falsy_dropped :
    ∀ (store : List OrderRec) (fo co : Bool) (ac : Option String) (s : String),
      (jsParseInt s).getD 0 = 0 →
      Orders.index store fo co (some s) ac = Orders.index store fo co none ac := by
  intro store fo co ac s hs
  have hsf : Orders.searchFilter (some s) = Orders.searchFilter none := by
    funext r
    unfold Orders.searchFilter Orders.searchQuery
    rcases h : s == "" with _ | _
    · cases hj : jsParseInt s with
      | none => simp [h, hj]
      | some q =>
        have hq : q = 0 := by
          rw [hj] at hs
          simpa using hs
        subst hq
        simp [h, hj]
    · simp [h]
  unfold Orders.index Orders.findOrders
  rw [hsf]

/-- C10 witness —: a non-numeric search term is served exactly like no
search term. -/
theorem claim10_witness :
    (jsParseInt "abc").getD 0 = 0 ∧
      Orders.index [⟨7, 9, false⟩] true true (some "abc") none
        = Orders.index [⟨7, 9, false⟩] true true none none :=
  ⟨by decide, claim10_search_falsy_dropped [⟨7, 9, false⟩] true true none "abc" (by decide)⟩

end Oba
